import Mathlib

/-!
Verification development for the jd-match resume-ranking backend
(jd-match-BE/server.js and jd-match-BE/s3_extractor.js).

The JavaScript source is shallowly embedded as executable Lean
definitions.  External effectful collaborators (the Bedrock model call,
the S3 object store, the xlsx tabular store) are modelled as explicit
inputs: the model call becomes a function from the attempt number to
either an error kind or the returned content text, the S3 enumeration
becomes a list of pages, and the workbook becomes a record value.
JavaScript runtime builtins used by the code (JSON.parse, parseInt,
Number coercion, String.prototype.trim, regex replaces, the ES2019
stable Array.prototype.sort) are modelled over lists of characters,
restricted to the decimal fragment the program exercises: the JSON
number grammar is modelled without exponent notation and string
escapes are modelled without unicode escapes.
-/

/-! Character constants.  Named so that brace, quote and backtick
characters never appear as literals in the code. -/

def cBT : Char := Char.ofNat 96

def cSQ : Char := Char.ofNat 39

def cDQ : Char := Char.ofNat 34

def cLB : Char := Char.ofNat 123

def cRB : Char := Char.ofNat 125

def cBS : Char := '\\'

/-- Whitespace class of the JavaScript regex class backslash-s and of
String.prototype.trim, restricted to its ASCII members. -/
def isJsWs (c : Char) : Bool :=
  c == ' ' || c == '\t' || c == '\n' || c == '\r' ||
  c == Char.ofNat 11 || c == Char.ofNat 12

/-- Whitespace accepted between JSON tokens by JSON.parse. -/
def isJsonWs (c : Char) : Bool :=
  c == ' ' || c == '\t' || c == '\n' || c == '\r'

def skipJWs (cs : List Char) : List Char := cs.dropWhile isJsonWs

/-- Trim of String.prototype.trim as a list transform. -/
def jsTrimL (cs : List Char) : List Char :=
  ((cs.dropWhile isJsWs).reverse.dropWhile isJsWs).reverse

/-! The JSON value model.  Numbers are rationals: JSON.parse keeps
fractional values, which only later turn into integers through the
parseInt coercion in findBestResumes. -/

inductive Json where
  | jnull : Json
  | jbool (b : Bool) : Json
  | jnum (q : Rat) : Json
  | jstr (s : String) : Json
  | jarr (vs : List Json) : Json
  | jobj (ps : List (String × Json)) : Json

/-- Duplicate object keys behave as in JSON.parse: the key keeps its
first position but the last value wins. -/
def dedupKeys : Nat → List (String × Json) → List (String × Json)
  | 0, l => l
  | _, [] => []
  | Nat.succ f, p :: rest =>
    (p.1, (((rest.filter (fun q => q.1 == p.1)).getLast?).map Prod.snd).getD p.2) ::
      dedupKeys f (rest.filter (fun q => q.1 != p.1))

def digitsToNat (cs : List Char) : Nat :=
  cs.foldl (fun a c => a * 10 + (c.toNat - 48)) 0

/-- Builds the rational value of a parsed JSON number. -/
def mkJsonNum (neg : Bool) (intDs fracDs : List Char) : Rat :=
  let q : Rat :=
    match fracDs with
    | [] => (digitsToNat intDs : Rat)
    | _ => mkRat (Int.ofNat (digitsToNat intDs * 10 ^ fracDs.length + digitsToNat fracDs))
        (10 ^ fracDs.length)
  if neg then -q else q

/-- JSON number grammar of JSON.parse (sign, integer part without
leading zeros, optional fraction; exponent forms are outside the
modelled fragment). -/
def parseNumber (cs : List Char) : Option (Rat × List Char) :=
  let (neg, cs1) := match cs with
    | '-' :: r => (true, r)
    | _ => (false, cs)
  let intDs := cs1.takeWhile Char.isDigit
  let r1 := cs1.dropWhile Char.isDigit
  if intDs.isEmpty then none
  else if intDs.length > 1 && intDs.head? == some '0' then none
  else match r1 with
    | '.' :: r2 =>
      let fracDs := r2.takeWhile Char.isDigit
      let r3 := r2.dropWhile Char.isDigit
      if fracDs.isEmpty then none
      else some (mkJsonNum neg intDs fracDs, r3)
    | _ => some (mkJsonNum neg intDs [], r1)

/-- Single-character JSON string escapes accepted by JSON.parse
(unicode escapes are outside the modelled fragment). -/
def escChar (c : Char) : Option Char :=
  if c = cDQ then some cDQ
  else if c = cBS then some cBS
  else if c = '/' then some '/'
  else if c = 'b' then some (Char.ofNat 8)
  else if c = 'f' then some (Char.ofNat 12)
  else if c = 'n' then some '\n'
  else if c = 'r' then some '\r'
  else if c = 't' then some '\t'
  else none

/-- Body of a JSON string after the opening quote; raw control
characters are rejected as in JSON.parse. -/
def parseStringBody : List Char → List Char → Option (String × List Char)
  | _, [] => none
  | acc, c :: cs =>
    if c = cDQ then some (String.mk acc.reverse, cs)
    else if c = cBS then
      match cs with
      | [] => none
      | e :: cs2 =>
        match escChar e with
        | some d => parseStringBody (d :: acc) cs2
        | none => none
    else if c.toNat < 32 then none
    else parseStringBody (c :: acc) cs

mutual

/-- Recursive-descent model of JSON.parse over characters.  The fuel
argument only bounds recursion; jsonParse supplies enough of it for
any input. -/
def parseValue : Nat → List Char → Option (Json × List Char)
  | 0, _ => none
  | Nat.succ fuel, cs =>
    match skipJWs cs with
    | [] => none
    | c :: rest =>
      if c = cDQ then
        match parseStringBody [] rest with
        | some (s, r) => some (Json.jstr s, r)
        | none => none
      else if c = cLB then
        match skipJWs rest with
        | [] => none
        | c2 :: r3 =>
          if c2 = cRB then some (Json.jobj [], r3)
          else
            match parseMembers fuel (c2 :: r3) [] with
            | some (ms, r4) => some (Json.jobj (dedupKeys ms.length ms), r4)
            | none => none
      else if c = '[' then
        match skipJWs rest with
        | [] => none
        | c2 :: r3 =>
          if c2 = ']' then some (Json.jarr [], r3)
          else
            match parseElems fuel (c2 :: r3) [] with
            | some (vs, r4) => some (Json.jarr vs, r4)
            | none => none
      else
        match c :: rest with
        | 'n' :: 'u' :: 'l' :: 'l' :: r => some (Json.jnull, r)
        | 't' :: 'r' :: 'u' :: 'e' :: r => some (Json.jbool true, r)
        | 'f' :: 'a' :: 'l' :: 's' :: 'e' :: r => some (Json.jbool false, r)
        | cs2 =>
          match parseNumber cs2 with
          | some (q, r) => some (Json.jnum q, r)
          | none => none

/-- Members of a JSON object after the opening brace. -/
def parseMembers : Nat → List Char → List (String × Json) →
    Option (List (String × Json) × List Char)
  | 0, _, _ => none
  | Nat.succ fuel, cs, acc =>
    match skipJWs cs with
    | [] => none
    | c :: rest =>
      if c = cDQ then
        match parseStringBody [] rest with
        | none => none
        | some (k, r1) =>
          match skipJWs r1 with
          | ':' :: r2 =>
            match parseValue fuel r2 with
            | none => none
            | some (v, r3) =>
              match skipJWs r3 with
              | ',' :: r4 => parseMembers fuel r4 (acc ++ [(k, v)])
              | c4 :: r4 => if c4 = cRB then some (acc ++ [(k, v)], r4) else none
              | [] => none
          | _ => none
      else none

/-- Elements of a JSON array after the opening bracket. -/
def parseElems : Nat → List Char → List Json → Option (List Json × List Char)
  | 0, _, _ => none
  | Nat.succ fuel, cs, acc =>
    match parseValue fuel cs with
    | none => none
    | some (v, r) =>
      match skipJWs r with
      | ',' :: r2 => parseElems fuel r2 (acc ++ [v])
      | c :: r2 => if c = ']' then some (acc ++ [v], r2) else none
      | [] => none

end

/-- Model of JSON.parse: parse one value and require only trailing
whitespace after it. -/
def jsonParse (s : String) : Option Json :=
  match parseValue (2 * s.data.length + 8) s.data with
  | some (j, r) => if (skipJWs r).isEmpty then some j else none
  | none => none

/-! Models of the JavaScript numeric builtins used by findBestResumes.
They are restricted to the decimal fragment: hexadecimal prefixes,
exponent notation and the Infinity literal are outside the model. -/

/-- Truncation toward zero, as applied by parseInt to a stringified
finite decimal number. -/
def ratTrunc (q : Rat) : Int :=
  if q.num < 0 then -(Int.ofNat (q.num.natAbs / q.den)) else Int.ofNat (q.num.natAbs / q.den)

/-- Model of global parseInt on a string: skip leading whitespace, an
optional sign, then leading decimal digits; none models NaN. -/
def parseIntJS (s : String) : Option Int :=
  let t := s.data.dropWhile isJsWs
  let (neg, t2) := match t with
    | '-' :: r => (true, r)
    | '+' :: r => (false, r)
    | _ => (false, t)
  let ds := t2.takeWhile Char.isDigit
  if ds.isEmpty then none
  else
    let n : Int := Int.ofNat (digitsToNat ds)
    some (if neg then -n else n)

/-- Model of the test SPACE not (isNaN (s)) for a string s: true when
Number would coerce the whole string to a non-NaN value.  The empty or
all-whitespace string coerces to zero, hence true. -/
def isNumericStr (s : String) : Bool :=
  let t := jsTrimL s.data
  match t with
  | [] => true
  | _ =>
    let t2 := match t with
      | c :: r => if c = '+' || c = '-' then r else t
      | [] => t
    let ds := t2.takeWhile Char.isDigit
    let r1 := t2.dropWhile Char.isDigit
    match r1 with
    | [] => !ds.isEmpty
    | '.' :: r2 =>
      let ds2 := r2.takeWhile Char.isDigit
      let r3 := r2.dropWhile Char.isDigit
      r3.isEmpty && (!ds.isEmpty || !ds2.isEmpty)
    | _ => false

/-! The three text-cleaning pipelines of the source, as list
transforms.  Functions that replace variable-length matches carry a
fuel argument that strictly exceeds the scanned length, so they are
structurally recursive and reduce by rfl on concrete inputs. -/

/-- Collapse every run of characters satisfying p into a single space
(the regex replace of a character-class-plus with one space). -/
def collapseRunsGo (p : Char → Bool) : Nat → List Char → List Char
  | 0, l => l
  | _, [] => []
  | Nat.succ f, c :: cs =>
    if p c then ' ' :: collapseRunsGo p f (cs.dropWhile p) else c :: collapseRunsGo p f cs

def collapseRuns (p : Char → Bool) (cs : List Char) : List Char :=
  collapseRunsGo p cs.length cs

/-- The leading code-fence marker backtick backtick backtick json. -/
def fenceJson : List Char := [cBT, cBT, cBT, 'j', 's', 'o', 'n']

/-- Cleaning phase of parseLLMOutput in server.js lines 93 to 98:
trim; remove a leading fence marker with json tag and every other
backtick (the global alternation regex removes the json tag only at
position zero and otherwise deletes each backtick); remove newlines;
collapse whitespace runs to one space; trim. -/
def cleanServer (s : String) : String :=
  let t0 := jsTrimL s.data
  let t1 := if t0.take 7 = fenceJson then t0.drop 7 else t0
  let t2 := t1.filter (fun c => c != cBT)
  let t3 := t2.filter (fun c => c != '\n')
  String.mk (jsTrimL (collapseRuns isJsWs t3))

/-- Cleaning phase of parseLLMOutput in s3_extractor.js lines 17 to 22:
trim; strip leading and trailing backtick runs (interior backticks are
kept); remove newlines; collapse whitespace runs; trim. -/
def cleanS3 (s : String) : String :=
  let t0 := jsTrimL s.data
  let t1 := t0.dropWhile (fun c => c == cBT)
  let t2 := (t1.reverse.dropWhile (fun c => c == cBT)).reverse
  let t3 := t2.filter (fun c => c != '\n')
  String.mk (jsTrimL (collapseRuns isJsWs t3))

/-- The regex replace of comma whitespace-star closing-brace with a
closing brace, scanning left to right without rescanning replacements. -/
def remTrailComma : Nat → List Char → List Char
  | 0, l => l
  | _, [] => []
  | Nat.succ f, c :: cs =>
    if c = ',' then
      match cs.dropWhile isJsWs with
      | r :: rest2 =>
        if r = cRB then cRB :: remTrailComma f rest2
        else ',' :: remTrailComma f cs
      | [] => ',' :: remTrailComma f cs
    else c :: remTrailComma f cs

def isIdentChar (c : Char) : Bool :=
  c.isAlpha || c.isDigit || c == '_'

/-- The regex replace that double-quotes a bare identifier key found
after an opening brace or a comma and before a colon. -/
def quoteKeys : Nat → List Char → List Char
  | 0, l => l
  | _, [] => []
  | Nat.succ f, c :: cs =>
    if c = cLB || c = ',' then
      let r1 := cs.dropWhile isJsWs
      let ident := r1.takeWhile isIdentChar
      if ident.isEmpty then c :: quoteKeys f cs
      else
        match (r1.dropWhile isIdentChar).dropWhile isJsWs with
        | ':' :: r3 => c :: cDQ :: (ident ++ (cDQ :: ':' :: quoteKeys f r3))
        | _ => c :: quoteKeys f cs
    else c :: quoteKeys f cs

/-- The greedy regex match from the first opening brace to the last
closing brace of the whole text; the text is unchanged when the match
fails.  Note this is greedy, not a balanced-brace extraction. -/
def braceExtract (cs : List Char) : List Char :=
  match cs.dropWhile (fun c => c != cLB) with
  | [] => cs
  | tl =>
    match (tl.reverse.dropWhile (fun c => c != cRB)).reverse with
    | [] => cs
    | upTo => upTo

/-- Inline cleanup chain of findBestResumes, server.js lines 254 to
264: collapse CR and LF runs to one space, turn every single quote
into a double quote, drop trailing commas before a closing brace,
quote bare keys, trim, then keep the greedy first-to-last brace span.
It is applied unconditionally, with no prior direct parse attempt. -/
def scorerClean (s : String) : String :=
  let t1 := collapseRuns (fun c => c == '\r' || c == '\n') s.data
  let t2 := t1.map (fun c => if c = cSQ then cDQ else c)
  let t3 := remTrailComma t2.length t2
  let t4 := quoteKeys t3.length t3
  String.mk (braceExtract (jsTrimL t4))

/-- parseLLMOutput of server.js lines 90 to 107: clean, then a single
JSON.parse attempt; null (none) on failure, with no repair pass. -/
def parseLLMOutputServer (s : String) : Option Json :=
  jsonParse (cleanServer s)

/-- The fallback object returned by parseLLMOutput of s3_extractor.js
on any parse failure (lines 29 to 34), also returned by
extractTagsFromChunks on any fault (lines 279 to 284). -/
def defaultTagSet : Json :=
  Json.jobj [("Skills", Json.jstr ""), ("Programming Languages", Json.jstr ""),
    ("Years of experience", Json.jstr ""), ("Job title", Json.jstr "")]

/-- parseLLMOutput of s3_extractor.js lines 14 to 36: clean, then a
single JSON.parse attempt; the default tag object on failure. -/
def parseLLMOutputS3 (s : String) : Json :=
  (jsonParse (cleanS3 s)).getD defaultTagSet

/-- The scorer setup: its cleanup chain followed by JSON.parse. -/
def scorerParse (s : String) : Option Json :=
  jsonParse (scorerClean s)

/-! The resilient invoker.  A failure carries a kind: the retry loop
tests the JavaScript error name against ThrottlingException, so the
model distinguishes the throttling kind from every other kind. -/

inductive ErrKind where
  | throttling : ErrKind
  | other : ErrKind
deriving DecidableEq, Repr

/-- Loop of retryWithExponentialBackoff (server.js lines 120 to 136 and
s3_extractor.js lines 202 to 218).  The operation is a function of the
attempt number; the fuel equals maxRetries minus the current retry
count, so the branch condition retries below maxRetries is exactly
fuel positive.  The second component collects the sleep durations
initialDelay times two to the retries. -/
def retryGo (op : Nat → Except ErrKind α) (init : Nat) :
    Nat → Nat → Except ErrKind α × List Nat
  | retries, 0 =>
    match op retries with
    | Except.ok v => (Except.ok v, [])
    | Except.error e => (Except.error e, [])
  | retries, Nat.succ f =>
    match op retries with
    | Except.ok v => (Except.ok v, [])
    | Except.error e =>
      match e with
      | ErrKind.throttling =>
        let r := retryGo op init (retries + 1) f
        (r.1, (init * 2 ^ retries) :: r.2)
      | ErrKind.other => (Except.error e, [])

/-- retryWithExponentialBackoff: run the loop from retry count zero.
The JavaScript defaults are maxRetries five and initialDelay one
thousand milliseconds; call sites pass them explicitly here. -/
def retryWithExponentialBackoff (op : Nat → Except ErrKind α) (maxRetries init : Nat) :
    Except ErrKind α × List Nat :=
  retryGo op init 0 maxRetries

/-- JavaScript truthiness on the JSON values parseLLMOutput can
return; the guard in extractJdTags throws on a falsy parse result. -/
def jsFalsy : Json → Bool
  | Json.jnull => true
  | Json.jbool b => !b
  | Json.jnum q => q == 0
  | Json.jstr s => s.isEmpty
  | _ => false

/-- extractJdTags (server.js lines 138 to 181).  The Bedrock call is
the black-box op, giving per attempt either the content text or a
failure kind.  Inside the retried closure the content is sanitized by
parseLLMOutputServer and a falsy result throws a plain Error, which
the retry loop rethrows at once (its name is not ThrottlingException);
the enclosing try catch absorbs every escaping error into null.  The
result type keeps the exception channel explicit: an escaping fault
would be Except.error, the caught path is Except.ok none.  jdAttempt
is the retried closure of lines 150 to 175. -/
def jdAttempt (op : Nat → Except ErrKind String) (i : Nat) : Except ErrKind Json :=
  match op i with
  | Except.error e => Except.error e
  | Except.ok content =>
    match parseLLMOutputServer content with
    | none => Except.error ErrKind.other
    | some j => if jsFalsy j then Except.error ErrKind.other else Except.ok j

def extractJdTags (op : Nat → Except ErrKind String) : Except ErrKind (Option Json) :=
  match (retryWithExponentialBackoff (jdAttempt op) 5 1000).1 with
  | Except.ok j => Except.ok (some j)
  | Except.error _ => Except.ok none

/-- A row of the Resume Tags sheet as read by the match endpoint; only
the resume_file_name field is consulted outside prompt building, so
the other tag fields are not modelled here. -/
structure ResumeRow where
  resume_file_name : String
deriving DecidableEq, Repr

/-- Match result of findBestResumes: the ranked selection and the
scores map.  The map is a list of key-value entries in object key
order; a none value models the NaN that parseInt yields on the
pathological numeric strings accepted by the isNaN filter. -/
structure MatchResult where
  selected : List String
  scores : List (String × Option Int)

/-- The typeof obj equals object test of server.js line 269; arrays
also satisfy it. -/
def isObjLike : Json → Bool
  | Json.jobj _ => true
  | Json.jarr _ => true
  | _ => false

/-- Object.entries on the parsed value: object entries in key order,
or index-keyed entries for an array. -/
def objEntries : Json → List (String × Json)
  | Json.jobj ps => ps
  | Json.jarr vs => vs.enum.map (fun p => (toString p.1, p.2))
  | _ => []

/-- The isValidScore test of server.js line 275: a number, or a string
whose Number coercion is not NaN. -/
def isValidScore : Json → Bool
  | Json.jnum _ => true
  | Json.jstr s => isNumericStr s
  | _ => false

/-- The parseInt coercion of server.js line 278 on an accepted score
value; none models NaN. -/
def coerceScore : Json → Option Int
  | Json.jnum q => some (ratTrunc q)
  | Json.jstr s => parseIntJS s
  | _ => none

/-- Score validation of server.js lines 269 to 280: keep entries whose
key names a submitted candidate row and whose value passes
isValidScore, then coerce values with parseInt. -/
def computeScores (resumeData : List ResumeRow) (obj : Json) : List (String × Option Int) :=
  if isObjLike obj then
    ((objEntries obj).filter (fun p =>
        resumeData.any (fun row => row.resume_file_name == p.1) && isValidScore p.2)).map
      (fun p => (p.1, coerceScore p.2))
  else []

/-- Threshold filter of server.js line 291 on the score entries; a NaN
value fails the comparison. -/
def validScores (threshold : Int) (scores : List (String × Option Int)) : List (String × Int) :=
  scores.filterMap (fun p =>
    match p.2 with
    | some s => if threshold ≤ s then some (p.1, s) else none
    | none => none)

/-- Stable insertion of an entry into a descending-sorted list: the
entry goes after every strictly larger score and before equal ones,
which is the ES2019 stable sort with the comparator b minus a. -/
def insertDesc (x : String × Int) : List (String × Int) → List (String × Int)
  | [] => [x]
  | q :: qs => if x.2 < q.2 then q :: insertDesc x qs else x :: q :: qs

/-- Stable sort by score descending (server.js line 292). -/
def sortDesc : List (String × Int) → List (String × Int)
  | [] => []
  | x :: xs => insertDesc x (sortDesc xs)

/-- Ranking tail of findBestResumes, lines 290 to 297: filter by the
threshold, sort descending, take the first topn, keep filenames. -/
def selectFrom (topn : Nat) (threshold : Int) (scores : List (String × Option Int)) :
    List String :=
  ((sortDesc (validScores threshold scores)).take topn).map Prod.fst

/-- findBestResumes (server.js lines 183 to 312).  The retried request
is the black-box op yielding the content text.  A failure escaping the
retry loop hits the outer catch and yields the empty result; a cleanup
or parse failure hits the inner catch and also yields the empty
result; otherwise scores are validated and ranked.  As in the source,
every path returns normally (Except.ok). -/
def findBestResumes (op : Nat → Except ErrKind String) (resumeData : List ResumeRow)
    (topn : Nat) (threshold : Int) : Except ErrKind MatchResult :=
  match (retryWithExponentialBackoff op 5 1000).1 with
  | Except.error _ => Except.ok ⟨[], []⟩
  | Except.ok content =>
    match scorerParse content with
    | none => Except.ok ⟨[], []⟩
    | some obj =>
      let scores := computeScores resumeData obj
      Except.ok ⟨selectFrom topn threshold scores, scores⟩

/-- extractTagsFromChunks (s3_extractor.js lines 220 to 286).  The
Bedrock call and envelope decoding are the black-box op yielding the
content text; the retry loop wraps it; any escaping fault is absorbed
by the catch into the default tag object, and a successful content is
sanitized by parseLLMOutputS3, which never fails.  Prompt building and
the twelve-thousand-character truncation only feed the black box and
are not modelled. -/
def extractTagsFromChunks (op : Nat → Except ErrKind String) : Except ErrKind Json :=
  match (retryWithExponentialBackoff op 5 1000).1 with
  | Except.ok content => Except.ok (parseLLMOutputS3 content)
  | Except.error _ => Except.ok defaultTagSet

/-! The ingestion pipeline processS3Bucket (s3_extractor.js lines 288
to 484).  The S3 enumeration is a list of pages; each page carries its
listed keys and its IsTruncated flag, and consecutive pages model the
continuation tokens.  The per-document work (download, chunk, extract,
move) is summarised by an outcome function on keys, since the claims
under verification concern the loop structure, the processed-count cap
and the failure ledger. -/

structure S3Page where
  contents : List String
  isTruncated : Bool

inductive KeyOutcome where
  | okKey : KeyOutcome
  | downloadFail : KeyOutcome
  | procFail : KeyOutcome
deriving DecidableEq, Repr

structure IngestState where
  totalProcessed : Nat
  results : List String
  failedFiles : List String
  processedFiles : List String
deriving Repr

def lowerEndsWithPdf (k : String) : Bool :=
  (k.data.map Char.toLower).reverse.take 4 == ['f', 'd', 'p', '.']

/-- Inner loop over one listed page, lines 316 to 384.  Non-pdf keys
and keys already in the processed set are skipped.  A download failure
records the key in the ledger and skips the processed-set add (the
continue statement jumps past it); any other processing fault records
the key and marks it processed.  A success counts it, and when the
running total reaches maxResumes the loop breaks at once (also
skipping the processed-set add).  The cap test happens only after a
success, never before starting a key. -/
def processBatch (outcome : String → KeyOutcome) (maxResumes : Nat) :
    List String → IngestState → IngestState
  | [], st => st
  | k :: ks, st =>
    if !lowerEndsWithPdf k then processBatch outcome maxResumes ks st
    else if st.processedFiles.contains k then processBatch outcome maxResumes ks st
    else
      match outcome k with
      | KeyOutcome.downloadFail =>
        processBatch outcome maxResumes ks
          { st with failedFiles := st.failedFiles ++ [k] }
      | KeyOutcome.procFail =>
        processBatch outcome maxResumes ks
          { st with failedFiles := st.failedFiles ++ [k],
                    processedFiles := st.processedFiles ++ [k] }
      | KeyOutcome.okKey =>
        let st1 := { st with totalProcessed := st.totalProcessed + 1,
                             results := st.results ++ [k] }
        if maxResumes ≤ st1.totalProcessed then st1
        else processBatch outcome maxResumes ks
          { st1 with processedFiles := st1.processedFiles ++ [k] }

/-- Outer listing loop, lines 301 to 401.  After a page is handled the
loop stops exactly when the response says IsTruncated is false; the
null continuation token assigned at the cap (line 366) is overwritten
by NextContinuationToken (line 400) before the next listing, so
reaching the cap does not by itself stop the listing loop. -/
def runPages (outcome : String → KeyOutcome) (maxResumes : Nat) :
    List S3Page → IngestState → IngestState
  | [], st => st
  | p :: rest, st =>
    let st1 := processBatch outcome maxResumes p.contents st
    if p.isTruncated then runPages outcome maxResumes rest st1 else st1

/-- processS3Bucket from the empty initial state. -/
def processS3Bucket (pages : List S3Page) (outcome : String → KeyOutcome)
    (maxResumes : Nat) : IngestState :=
  runPages outcome maxResumes pages ⟨0, [], [], []⟩

/-! The corpus store saveToExcel (s3_extractor.js lines 130 to 199).
The workbook is modelled by its two partitions; a missing sheet is
none.  The end-of-run block of processS3Bucket (lines 404 to 477)
repeats the same merge and replacement logic verbatim. -/

structure TagRecord where
  resume_file_name : String
  payload : List (String × String)
deriving DecidableEq, Repr

structure Workbook where
  resumeTags : Option (List TagRecord)
  failedFiles : Option (List String)
deriving DecidableEq, Repr

/-- One step of the merge loop, lines 155 to 166: replace the first
row whose resume_file_name matches, else append. -/
def upsertOne : List TagRecord → TagRecord → List TagRecord
  | [], r => [r]
  | x :: xs, r =>
    if x.resume_file_name = r.resume_file_name then r :: xs else x :: upsertOne xs r

/-- The whole merge loop over the incoming records in order. -/
def upsertAll (existing : List TagRecord) (results : List TagRecord) : List TagRecord :=
  results.foldl upsertOne existing

/-- The fault-free body of saveToExcel on a workbook state (none when
the backing file does not exist): merge into the Resume Tags sheet and
replace it wholesale; replace the Failed Files sheet only when the
supplied failure list is non-empty, else leave it untouched. -/
def saveToExcelPure (wb : Option Workbook) (results : List TagRecord)
    (failedFiles : List String) : Workbook :=
  let existing := match wb with
    | some w => w.resumeTags.getD []
    | none => []
  let merged := upsertAll existing results
  let prevFailed := wb.bind Workbook.failedFiles
  { resumeTags := some merged,
    failedFiles := if failedFiles.isEmpty then prevFailed else some failedFiles }

/-- Fault injection for saveToExcel: a read fault is caught by the
inner catch (line 143), which proceeds with a fresh workbook exactly
as when the file does not exist; a write fault is caught by the outer
catch (line 196), which logs and returns normally leaving the backing
file unchanged. -/
inductive SaveFault where
  | noFault : SaveFault
  | readFault : SaveFault
  | writeFault : SaveFault
deriving DecidableEq, Repr

/-- saveToExcel with its try catch structure made explicit: Except
models the exception channel of the caller, and the state is the
workbook on disk.  Every branch returns normally. -/
def saveToExcelRun (fault : SaveFault) (results : List TagRecord)
    (failedFiles : List String) (disk : Option Workbook) : Except Unit (Option Workbook) :=
  match fault with
  | SaveFault.noFault => Except.ok (some (saveToExcelPure disk results failedFiles))
  | SaveFault.readFault => Except.ok (some (saveToExcelPure none results failedFiles))
  | SaveFault.writeFault => Except.ok disk


/-! Concrete model outputs and candidate sets used by the witnesses
and counterexamples.  Strings holding quote or brace characters are
assembled from the named character constants. -/

def contentMulti : String :=
  String.mk ([cLB, cDQ, 'a', '.', 'p', 'd', 'f', cDQ, ':', '7', '0', ',', ' '] ++
    [cDQ, 'b', '.', 'p', 'd', 'f', cDQ, ':', '5', '5', ',', ' '] ++
    [cDQ, 'c', '.', 'p', 'd', 'f', cDQ, ':', '9', '0', ',', ' '] ++
    [cDQ, 'h', '.', 'p', 'd', 'f', cDQ, ':', '8', '0', ',', ' '] ++
    [cDQ, 'd', '.', 'p', 'd', 'f', cDQ, ':', '7', '0', cRB])

def rdMulti : List ResumeRow := [⟨"a.pdf"⟩, ⟨"b.pdf"⟩, ⟨"c.pdf"⟩, ⟨"d.pdf"⟩]

/-- The result of scoring contentMulti over rdMulti: the hallucinated
filename h.pdf is dropped, b.pdf stays in the map below the threshold,
and the tie between a.pdf and d.pdf keeps emission order. -/
def mrMulti : MatchResult :=
  ⟨["c.pdf", "a.pdf", "d.pdf"],
    [("a.pdf", some 70), ("b.pdf", some 55), ("c.pdf", some 90), ("d.pdf", some 70)]⟩

def content150 : String :=
  String.mk [cLB, cDQ, 'a', '.', 'p', 'd', 'f', cDQ, ':', ' ', '1', '5', '0', cRB]

def rdSingle : List ResumeRow := [⟨"a.pdf"⟩]

/-- The single-quoted object text: direct JSON.parse fails on it, the
quote-replacement repair would fix it. -/
def sQuote : String := String.mk [cLB, cSQ, 'a', cSQ, ':', ' ', '1', cRB]

/-- A valid JSON object whose key holds an apostrophe; the scorer's
unconditional quote replacement corrupts it. -/
def sApos : String := String.mk [cLB, cDQ, 'i', 't', cSQ, 's', cDQ, ':', '1', cRB]

/-- Two valid objects with prose between them: balanced extraction
would recover the first, the greedy first-to-last span parses as
neither. -/
def sGreedy : String :=
  String.mk ([cLB, cDQ, 'a', cDQ, ':', '1', cRB, ' ', 'x', ' '] ++
    [cLB, cDQ, 'b', cDQ, ':', '2', cRB])

/-- A plain well-formed object text. -/
def sOkJson : String := String.mk [cLB, cDQ, 'a', cDQ, ':', '1', cRB]

/-- Two listing pages: the first holds two documents and reports more
pages, the second holds one document and is final. -/
def pages0 : List S3Page := [⟨["a.pdf", "b.pdf"], true⟩, ⟨["c.pdf"], false⟩]

/-- A workbook whose failure ledger still holds a previous run's
entry. -/
def wbOld : Workbook := ⟨some [], some ["old.pdf"]⟩

def recA : TagRecord := ⟨"a.pdf", [("Skills", "java")]⟩

def recA2 : TagRecord := ⟨"a.pdf", [("Skills", "python")]⟩

def recB : TagRecord := ⟨"b.pdf", [("Skills", "sql")]⟩

/-! Lemmas about the stable descending sort. -/

lemma mem_insertDesc {x y : String × Int} {l : List (String × Int)} :
    y ∈ insertDesc x l ↔ y = x ∨ y ∈ l := by
  induction l with
  | nil => simp [insertDesc]
  | cons q qs ih =>
    by_cases h : x.2 < q.2
    · simp only [insertDesc, if_pos h, List.mem_cons, ih]
      tauto
    · simp only [insertDesc, if_neg h, List.mem_cons]

lemma pairwise_insertDesc {x : String × Int} {l : List (String × Int)}
    (hl : l.Pairwise (fun a b => b.2 ≤ a.2)) :
    (insertDesc x l).Pairwise (fun a b => b.2 ≤ a.2) := by
  induction l with
  | nil => simp [insertDesc]
  | cons q qs ih =>
    rcases List.pairwise_cons.mp hl with ⟨hq, hqs⟩
    by_cases h : x.2 < q.2
    · rw [insertDesc, if_pos h]
      refine List.pairwise_cons.mpr ⟨?_, ih hqs⟩
      intro y hy
      rcases mem_insertDesc.mp hy with rfl | hy'
      · exact le_of_lt h
      · exact hq y hy'
    · rw [insertDesc, if_neg h]
      refine List.pairwise_cons.mpr ⟨?_, hl⟩
      intro y hy
      rcases List.mem_cons.mp hy with rfl | hy'
      · exact not_lt.mp h
      · exact le_trans (hq y hy') (not_lt.mp h)

lemma pairwise_sortDesc (l : List (String × Int)) :
    (sortDesc l).Pairwise (fun a b => b.2 ≤ a.2) := by
  induction l with
  | nil => exact List.Pairwise.nil
  | cons x xs ih => exact pairwise_insertDesc ih

lemma mem_sortDesc {y : String × Int} {l : List (String × Int)} :
    y ∈ sortDesc l ↔ y ∈ l := by
  induction l with
  | nil => simp [sortDesc]
  | cons x xs ih =>
    rw [sortDesc]
    rw [mem_insertDesc]
    simp [ih]

/-- Stability of the sort: the subsequence of entries carrying any one
score value is unchanged, hence equal scores keep their original
relative order. -/
lemma filter_insertDesc (x : String × Int) (l : List (String × Int)) (v : Int) :
    (insertDesc x l).filter (fun p => decide (p.2 = v)) =
      if x.2 = v then x :: l.filter (fun p => decide (p.2 = v))
      else l.filter (fun p => decide (p.2 = v)) := by
  induction l with
  | nil => by_cases h : x.2 = v <;> simp [insertDesc, h]
  | cons q qs ih =>
    by_cases hlt : x.2 < q.2
    · rw [insertDesc, if_pos hlt]
      by_cases hx : x.2 = v
      · have hq : ¬ q.2 = v := by omega
        simp [List.filter_cons, hx, hq, ih]
      · by_cases hq : q.2 = v <;> simp [List.filter_cons, hx, hq, ih]
    · rw [insertDesc, if_neg hlt]
      by_cases hx : x.2 = v <;> by_cases hq : q.2 = v <;>
        simp [List.filter_cons, hx, hq]

lemma filter_sortDesc (l : List (String × Int)) (v : Int) :
    (sortDesc l).filter (fun p => decide (p.2 = v)) =
      l.filter (fun p => decide (p.2 = v)) := by
  induction l with
  | nil => rfl
  | cons x xs ih =>
    rw [sortDesc, filter_insertDesc]
    by_cases h : x.2 = v <;> simp [List.filter_cons, h, ih]

/-! Lemmas about the threshold filter. -/

lemma mem_validScores {th : Int} {scores : List (String × Option Int)} {p : String × Int}
    (h : p ∈ validScores th scores) : (p.1, some p.2) ∈ scores ∧ th ≤ p.2 := by
  rcases List.mem_filterMap.mp h with ⟨q, hq, hfq⟩
  obtain ⟨k, vv⟩ := q
  cases vv with
  | none => simp at hfq
  | some s =>
    simp only at hfq
    by_cases hth : th ≤ s
    · rw [if_pos hth] at hfq
      cases hfq
      exact ⟨hq, hth⟩
    · rw [if_neg hth] at hfq
      cases hfq

lemma validScores_filter (th v : Int) (h : th ≤ v) (scores : List (String × Option Int)) :
    (validScores th scores).filter (fun p => decide (p.2 = v)) =
      scores.filterMap (fun q => if q.2 = some v then some (q.1, v) else none) := by
  induction scores with
  | nil => rfl
  | cons q qs ih =>
    obtain ⟨k, vv⟩ := q
    cases vv with
    | none => simpa [validScores, List.filterMap_cons] using ih
    | some s =>
      by_cases hth : th ≤ s
      · by_cases hv : s = v
        · subst hv
          simpa [validScores, List.filterMap_cons, hth, List.filter_cons] using ih
        · have : ¬ (some s = some v) := by simp [hv]
          simpa [validScores, List.filterMap_cons, hth, List.filter_cons, hv, this] using ih
      · have hv : ¬ s = v := by omega
        have : ¬ (some s = some v) := by simp [hv]
        simpa [validScores, List.filterMap_cons, hth, this] using ih

/-- Full specification of the ranking tail: the selection is at most
topn long; it is the key image of a pairwise-descending list of scored
entries, each present in the scores map with a score at or above the
threshold; and for every score value the selected entries carrying it
form a prefix of the map entries carrying it, in map order (the stable
tie-break). -/
lemma selectFrom_spec (topn : Nat) (th : Int) (scores : List (String × Option Int)) :
    (selectFrom topn th scores).length ≤ topn ∧
    ∃ ps : List (String × Int),
      ps.map Prod.fst = selectFrom topn th scores ∧
      (∀ p ∈ ps, (p.1, some p.2) ∈ scores ∧ th ≤ p.2) ∧
      ps.Pairwise (fun a b => b.2 ≤ a.2) ∧
      ∀ v : Int, List.IsPrefix (ps.filter (fun p => decide (p.2 = v)))
        (scores.filterMap (fun q => if q.2 = some v then some (q.1, v) else none)) := by
  constructor
  · rw [selectFrom, List.length_map]
    exact List.length_take_le topn _
  · refine ⟨(sortDesc (validScores th scores)).take topn, rfl, ?_, ?_, ?_⟩
    · intro p hp
      have hp1 : p ∈ sortDesc (validScores th scores) := List.mem_of_mem_take hp
      exact mem_validScores (mem_sortDesc.mp hp1)
    · exact (pairwise_sortDesc _).sublist (List.take_sublist _ _)
    · intro v
      by_cases hv : th ≤ v
      · have h1 := (List.take_prefix topn (sortDesc (validScores th scores))).filter
          (fun p => decide (p.2 = v))
        rwa [filter_sortDesc, validScores_filter th v hv] at h1
      · have hnil : ((sortDesc (validScores th scores)).take topn).filter
            (fun p => decide (p.2 = v)) = [] := by
          refine List.filter_eq_nil_iff.mpr ?_
          intro p hp
          have := (mem_validScores (mem_sortDesc.mp (List.mem_of_mem_take hp))).2
          simp only [decide_eq_true_eq]
          omega
        rw [hnil]
        exact List.nil_prefix

/-- Every normally returned match result has the shape produced by the
ranking tail, over either the empty map (the two catch paths) or the
validated map computed from some parsed model output. -/
lemma findBestResumes_ok_shape (op : Nat → Except ErrKind String) (rd : List ResumeRow)
    (topn : Nat) (th : Int) (r : MatchResult)
    (h : findBestResumes op rd topn th = Except.ok r) :
    ∃ scores, r = ⟨selectFrom topn th scores, scores⟩ ∧
      (scores = [] ∨ ∃ obj, scores = computeScores rd obj) := by
  unfold findBestResumes at h
  cases hr : (retryWithExponentialBackoff op 5 1000).1 with
  | error e =>
    rw [hr] at h
    refine ⟨[], ?_, Or.inl rfl⟩
    cases h
    simp [selectFrom, validScores, sortDesc]
  | ok content =>
    rw [hr] at h
    dsimp only at h
    cases hp : scorerParse content with
    | none =>
      rw [hp] at h
      refine ⟨[], ?_, Or.inl rfl⟩
      cases h
      simp [selectFrom, validScores, sortDesc]
    | some obj =>
      rw [hp] at h
      refine ⟨computeScores rd obj, ?_, Or.inr ⟨obj, rfl⟩⟩
      cases h
      rfl

/-- C1: for every candidate set, topN and threshold, the selected
sequence returned by findBestResumes has length at most topN, every
entry in it appears in the returned scores map with a score at least
the threshold, and selected is sorted descending by score, entries of
equal score preserving the emission order of the scores map (which is
the model's key-emission order restricted to the validated keys). -/
theorem c1_ranking_invariants (op : Nat → Except ErrKind String)
    (resumeData : List ResumeRow) (topn : Nat) (threshold : Int) (r : MatchResult)
    (h : findBestResumes op resumeData topn threshold = Except.ok r) :
    r.selected.length ≤ topn ∧
    ∃ ps : List (String × Int),
      ps.map Prod.fst = r.selected ∧
      (∀ p ∈ ps, (p.1, some p.2) ∈ r.scores ∧ threshold ≤ p.2) ∧
      ps.Pairwise (fun a b => b.2 ≤ a.2) ∧
      ∀ v : Int, List.IsPrefix (ps.filter (fun p => decide (p.2 = v)))
        (r.scores.filterMap (fun q => if q.2 = some v then some (q.1, v) else none)) := by
  rcases findBestResumes_ok_shape op resumeData topn threshold r h with ⟨scores, rfl, _⟩
  exact selectFrom_spec topn threshold scores

/-- C1 witness: the ranking invariants evaluated on a five-entry model
output over four candidates with topN three and threshold sixty. -/
theorem c1_witness :
    mrMulti.selected.length ≤ 3 ∧
    ∃ ps : List (String × Int),
      ps.map Prod.fst = mrMulti.selected ∧
      (∀ p ∈ ps, (p.1, some p.2) ∈ mrMulti.scores ∧ (60 : Int) ≤ p.2) ∧
      ps.Pairwise (fun a b => b.2 ≤ a.2) ∧
      ∀ v : Int, List.IsPrefix (ps.filter (fun p => decide (p.2 = v)))
        (mrMulti.scores.filterMap (fun q => if q.2 = some v then some (q.1, v) else none)) :=
  c1_ranking_invariants (fun _ => Except.ok contentMulti) rdMulti 3 60 mrMulti rfl

/-- C2 counterexample: with candidate set a.pdf and model output
mapping a.pdf to one hundred fifty, the returned scores map holds the
value one hundred fifty, outside the claimed range zero to one
hundred: no range check is applied to coerced scores. -/
theorem c2_counterexample :
    findBestResumes (fun _ => Except.ok content150) rdSingle 3 60 =
      Except.ok ⟨["a.pdf"], [("a.pdf", some 150)]⟩ ∧ (100 : Int) < 150 :=
  ⟨rfl, by decide⟩

/-- C2 (amended): the scores map returned by findBestResumes contains
only filenames present in the submitted candidate set (hallucinated
filenames are dropped); values are the parseInt coercions of the
emitted values, with no range check applied. -/
theorem c2_scores_only_candidates (op : Nat → Except ErrKind String)
    (rd : List ResumeRow) (topn : Nat) (th : Int) (r : MatchResult)
    (h : findBestResumes op rd topn th = Except.ok r) :
    ∀ p ∈ r.scores, rd.any (fun row => row.resume_file_name == p.1) = true := by
  rcases findBestResumes_ok_shape op rd topn th r h with ⟨scores, rfl, hor⟩
  rcases hor with rfl | ⟨obj, rfl⟩
  · intro p hp
    simp at hp
  · intro p hp
    unfold computeScores at hp
    by_cases hobj : isObjLike obj
    · rw [if_pos hobj] at hp
      rcases List.mem_map.mp hp with ⟨q, hq, hpq⟩
      have hpred := (List.mem_filter.mp hq).2
      rw [Bool.and_eq_true] at hpred
      cases hpq
      exact hpred.1
    · rw [if_neg hobj] at hp
      simp at hp

/-- C2 witness: the containment property applied to the concrete run
whose map holds the out-of-range score. -/
theorem c2_witness : rdSingle.any (fun row => row.resume_file_name == "a.pdf") = true :=
  c2_scores_only_candidates (fun _ => Except.ok content150) rdSingle 3 60
    ⟨["a.pdf"], [("a.pdf", some 150)]⟩ rfl ("a.pdf", some 150) (List.mem_singleton.mpr rfl)

/-- C3 counterexample: on the single-quoted object text the claimed
repair pass would succeed (the repaired text parses to an object), yet
the sanitizer parseLLMOutput signals failure: it never applies any
repair after its direct parse fails. -/
theorem c3_counterexample :
    parseLLMOutputServer sQuote = none ∧
    jsonParse (scorerClean sQuote) = some (Json.jobj [("a", Json.jnum 1)]) :=
  ⟨rfl, rfl⟩

/-- C3 (amended): the sanitizer attempts only a direct parse of the
fence-stripped, whitespace-normalised text, succeeding exactly when
that parse succeeds; the textual repair chain exists only inside the
relevance scorer, where it is applied unconditionally before a single
parse attempt (so it can corrupt already valid text holding an
apostrophe) and extracts the greedy first-to-last brace span rather
than the first balanced object. -/
theorem c3_sanitizer_no_repair :
    (∀ (s : String) (j : Json), jsonParse (cleanServer s) = some j →
      parseLLMOutputServer s = some j) ∧
    jsonParse sApos = some (Json.jobj [(String.mk ['i', 't', cSQ, 's'], Json.jnum 1)]) ∧
    scorerParse sApos = none ∧
    scorerParse sGreedy = none := by
  refine ⟨?_, rfl, rfl, rfl⟩
  intro s j h
  exact h

/-- C3 witness: the direct-parse clause applied to a well-formed
object text. -/
theorem c3_witness : parseLLMOutputServer sOkJson = some (Json.jobj [("a", Json.jnum 1)]) :=
  c3_sanitizer_no_repair.1 sOkJson (Json.jobj [("a", Json.jnum 1)]) rfl

/-- C4: with maxResumes one, one truncated page of two documents and a
final page of one document, the run processes two documents: reaching
the cap breaks only the inner loop (the nulled continuation token is
overwritten before the next listing), so each later page processes one
more document before the cap test fires, exceeding the cap.  The
source comments on lines 294 and 366 state the opposite intent. -/
theorem c4_cap_exceeded :
    (processS3Bucket pages0 (fun _ => KeyOutcome.okKey) 1).totalProcessed = 2 ∧
    1 < (processS3Bucket pages0 (fun _ => KeyOutcome.okKey) 1).totalProcessed :=
  ⟨rfl, by decide⟩

/-- When every attempt fails with the throttling kind, the retry loop
itself ends with the throttling error after exhausting its budget. -/
lemma retryGo_all_throttling {α : Type} (op : Nat → Except ErrKind α) (init : Nat)
    (h : ∀ i, op i = Except.error ErrKind.throttling) :
    ∀ fuel retries, (retryGo op init retries fuel).1 = Except.error ErrKind.throttling := by
  intro fuel
  induction fuel with
  | zero =>
    intro retries
    simp [retryGo, h retries]
  | succ f ih =>
    intro retries
    simp [retryGo, h retries, ih (retries + 1)]

/-- C5 counterexample: with an operation that is throttled on every
attempt, both query-path operations return normally with the null and
empty results; the exhausted-retry error does not escape to the
caller. -/
theorem c5_counterexample :
    extractJdTags (fun _ => Except.error ErrKind.throttling) = Except.ok none ∧
    findBestResumes (fun _ => Except.error ErrKind.throttling) rdSingle 3 60 =
      Except.ok ⟨[], []⟩ :=
  ⟨rfl, rfl⟩

/-- C5 (amended): a throttling failure on every attempt exhausts the
retries inside retryWithExponentialBackoff, but the enclosing try
catch of each query-path operation absorbs the escaping error:
extractJdTags returns null and findBestResumes returns the empty
match result, both normally. -/
theorem c5_throttling_absorbed (op : Nat → Except ErrKind String)
    (h : ∀ i, op i = Except.error ErrKind.throttling) :
    extractJdTags op = Except.ok none ∧
    ∀ (rd : List ResumeRow) (topn : Nat) (th : Int),
      findBestResumes op rd topn th = Except.ok ⟨[], []⟩ := by
  constructor
  · have h' : ∀ i, jdAttempt op i = Except.error ErrKind.throttling := by
      intro i
      simp [jdAttempt, h i]
    unfold extractJdTags retryWithExponentialBackoff
    rw [retryGo_all_throttling _ 1000 h' 5 0]
  · intro rd topn th
    unfold findBestResumes retryWithExponentialBackoff
    rw [retryGo_all_throttling op 1000 h 5 0]

/-- C5 witness: the absorption applied to the always-throttled
operation over the four-candidate set. -/
theorem c5_witness :
    extractJdTags (fun _ => Except.error ErrKind.throttling) = Except.ok none ∧
    findBestResumes (fun _ => Except.error ErrKind.throttling) rdMulti 3 60 =
      Except.ok ⟨[], []⟩ := by
  have h := c5_throttling_absorbed (fun _ => Except.error ErrKind.throttling) (fun _ => rfl)
  exact ⟨h.1, h.2 rdMulti 3 60⟩

/-- Delay sequence of the retry loop: j throttled attempts followed by
a success return the success value after exactly the delays
init times two to the successive retry counts. -/
lemma retryGo_delays {α : Type} (op : Nat → Except ErrKind α) (init : Nat) (v : α) :
    ∀ (j retries fuel : Nat), j ≤ fuel →
      (∀ i, i < j → op (retries + i) = Except.error ErrKind.throttling) →
      op (retries + j) = Except.ok v →
      retryGo op init retries fuel =
        (Except.ok v, (List.range j).map (fun i => init * 2 ^ (retries + i))) := by
  intro j
  induction j with
  | zero =>
    intro retries fuel _ _ hok
    rw [Nat.add_zero] at hok
    cases fuel with
    | zero => simp [retryGo, hok]
    | succ f => simp [retryGo, hok]
  | succ n ih =>
    intro retries fuel hle hthr hok
    cases fuel with
    | zero => omega
    | succ f =>
      have h0 : op retries = Except.error ErrKind.throttling := by
        have := hthr 0 (Nat.succ_pos n)
        rwa [Nat.add_zero] at this
      have hrec := ih (retries + 1) f (by omega)
        (by
          intro i hi
          have := hthr (i + 1) (by omega)
          rwa [show retries + (i + 1) = retries + 1 + i by omega] at this)
        (by rwa [show retries + 1 + n = retries + (n + 1) by omega])
      simp only [retryGo, h0]
      rw [hrec]
      have hfun : (fun i => init * 2 ^ (retries + 1 + i)) =
          ((fun i => init * 2 ^ (retries + i)) ∘ Nat.succ) := by
        funext i
        show init * 2 ^ (retries + 1 + i) = init * 2 ^ (retries + (i + 1))
        rw [show retries + 1 + i = retries + (i + 1) by omega]
      rw [List.range_succ_eq_map, List.map_cons, List.map_map, ← hfun, Nat.add_zero]
      simp

/-- C6: an operation throttled exactly k times (k below maxRetries)
and then successful makes the resilient invoker return the success
value after exactly the delays initialDelay times one, two, four and
so on through two to the k minus one; an operation failing with the
non-throttling kind on its first attempt propagates at once with no
delay. -/
theorem c6_backoff {α : Type} (op1 op2 : Nat → Except ErrKind α) (k maxRetries init : Nat)
    (v : α) (e : ErrKind)
    (h1 : ∀ i, i < k → op1 i = Except.error ErrKind.throttling)
    (h2 : op1 k = Except.ok v)
    (h3 : k < maxRetries)
    (h4 : op2 0 = Except.error e)
    (h5 : e ≠ ErrKind.throttling) :
    retryWithExponentialBackoff op1 maxRetries init =
      (Except.ok v, (List.range k).map (fun i => init * 2 ^ i)) ∧
    retryWithExponentialBackoff op2 maxRetries init = (Except.error e, []) := by
  constructor
  · have h := retryGo_delays op1 init v k 0 maxRetries (le_of_lt h3)
      (by intro i hi; simpa using h1 i hi)
      (by simpa using h2)
    unfold retryWithExponentialBackoff
    simpa using h
  · have he : e = ErrKind.other := by
      cases e
      · exact absurd rfl h5
      · rfl
    subst he
    unfold retryWithExponentialBackoff
    cases maxRetries with
    | zero => simp [retryGo, h4]
    | succ f => simp [retryGo, h4]

/-- C6 witness: two throttled attempts then success yields the value
after sleeps of one and two seconds; a first-attempt failure of the
other kind propagates with no sleep. -/
theorem c6_witness :
    retryWithExponentialBackoff
        (fun i => if i < 2 then Except.error ErrKind.throttling else Except.ok (42 : Nat)) 5 1000 =
      (Except.ok 42, [1000, 2000]) ∧
    retryWithExponentialBackoff (fun _ => Except.error (α := Nat) ErrKind.other) 5 1000 =
      (Except.error ErrKind.other, []) := by
  have h := c6_backoff
    (fun i => if i < 2 then Except.error ErrKind.throttling else Except.ok (42 : Nat))
    (fun _ => Except.error (α := Nat) ErrKind.other) 2 5 1000 42 ErrKind.other
    (by intro i hi; simp [hi]) (by norm_num) (by omega) rfl (by decide)
  refine ⟨?_, h.2⟩
  rw [h.1]
  rfl

/-- C7 counterexample: on unparseable content the resume-chunk
extractor returns the default empty-tags object, not null; and on
content parsing to the non-object value forty-two, the job-description
extractor returns that value as-is (the source checks only falsiness,
never objecthood), not null. -/
theorem c7_counterexample :
    extractTagsFromChunks (fun _ => Except.ok ("definitely not json")) =
      Except.ok (Json.jobj [("Skills", Json.jstr ""), ("Programming Languages", Json.jstr ""),
        ("Years of experience", Json.jstr ""), ("Job title", Json.jstr "")]) ∧
    extractJdTags (fun _ => Except.ok ("42")) = Except.ok (some (Json.jnum 42)) :=
  ⟨rfl, rfl⟩

/-- C7 (amended): when sanitization of the model response fails,
neither extractor raises: extractJdTags returns null while
extractTagsFromChunks returns the default empty-tags object; no
is-an-object check is applied to a successful parse. -/
theorem c7_sanitize_failure_absorbed :
    (∀ content : String, jsonParse (cleanServer content) = none →
      extractJdTags (fun _ => Except.ok content) = Except.ok none) ∧
    (∀ content : String, jsonParse (cleanS3 content) = none →
      extractTagsFromChunks (fun _ => Except.ok content) = Except.ok defaultTagSet) := by
  constructor
  · intro content h
    unfold extractJdTags retryWithExponentialBackoff
    simp [retryGo, jdAttempt, parseLLMOutputServer, h]
  · intro content h
    unfold extractTagsFromChunks retryWithExponentialBackoff
    simp [retryGo, parseLLMOutputS3, h]

/-- C7 witness: both absorption clauses applied to a non-JSON
content. -/
theorem c7_witness :
    extractJdTags (fun _ => Except.ok ("not json")) = Except.ok none ∧
    extractTagsFromChunks (fun _ => Except.ok ("not json")) = Except.ok defaultTagSet :=
  ⟨c7_sanitize_failure_absorbed.1 ("not json") rfl,
    c7_sanitize_failure_absorbed.2 ("not json") rfl⟩

/-- C8 counterexample: a call recording an empty failure list leaves
the previous run's Failed Files partition in place instead of
replacing it with the empty list. -/
theorem c8_counterexample :
    (saveToExcelPure (some wbOld) [] []).failedFiles = some ["old.pdf"] ∧
    (saveToExcelPure (some wbOld) [] []).failedFiles ≠ some [] :=
  ⟨rfl, by decide⟩

/-- C8 (amended): a call with a non-empty failure list replaces the
Failed Files partition wholesale with the supplied list; a call with
an empty list leaves the previous partition untouched, so the
partition reflects the most recent run that had failures. -/
theorem c8_failure_ledger (wb : Option Workbook) (results : List TagRecord)
    (failed : List String) :
    (failed ≠ [] → (saveToExcelPure wb results failed).failedFiles = some failed) ∧
    (failed = [] → (saveToExcelPure wb results failed).failedFiles =
      wb.bind Workbook.failedFiles) := by
  constructor
  · intro h
    cases failed with
    | nil => exact absurd rfl h
    | cons a as => simp [saveToExcelPure]
  · intro h
    subst h
    simp [saveToExcelPure]

/-- C8 witness: the replacement clause applied to a workbook holding
an older ledger. -/
theorem c8_witness :
    (saveToExcelPure (some wbOld) [] ["x.pdf"]).failedFiles = some ["x.pdf"] :=
  (c8_failure_ledger (some wbOld) [] ["x.pdf"]).1 (by simp)

/-- Upserting the same record a second time changes nothing. -/
lemma upsertOne_idem (l : List TagRecord) (r : TagRecord) :
    upsertOne (upsertOne l r) r = upsertOne l r := by
  induction l with
  | nil => simp [upsertOne]
  | cons x xs ih =>
    by_cases h : x.resume_file_name = r.resume_file_name
    · simp [upsertOne, h]
    · simp [upsertOne, h, ih]

/-- Under unique keys, after an upsert the rows carrying the upserted
key are exactly the incoming record. -/
lemma upsertOne_filter (l : List TagRecord) (r : TagRecord)
    (hnd : (l.map TagRecord.resume_file_name).Nodup) :
    (upsertOne l r).filter
      (fun x => decide (x.resume_file_name = r.resume_file_name)) = [r] := by
  induction l with
  | nil => simp [upsertOne]
  | cons x xs ih =>
    rw [List.map_cons, List.nodup_cons] at hnd
    by_cases h : x.resume_file_name = r.resume_file_name
    · rw [upsertOne, if_pos h]
      rw [List.filter_cons]
      have hxs : xs.filter (fun x => decide (x.resume_file_name = r.resume_file_name)) = [] := by
        refine List.filter_eq_nil_iff.mpr ?_
        intro y hy
        simp only [decide_eq_true_eq]
        intro hy2
        exact hnd.1 (by rw [h, ← hy2]; exact List.mem_map_of_mem _ hy)
      simp [hxs]
    · rw [upsertOne, if_neg h]
      rw [List.filter_cons]
      simp [h, ih hnd.2]

/-- Rows with other keys survive an upsert. -/
lemma upsertOne_mem_of_ne (l : List TagRecord) (r : TagRecord) :
    ∀ x ∈ l, x.resume_file_name ≠ r.resume_file_name → x ∈ upsertOne l r := by
  induction l with
  | nil => intro x hx; cases hx
  | cons y ys ih =>
    intro x hx hne
    by_cases hy : y.resume_file_name = r.resume_file_name
    · rw [upsertOne, if_pos hy]
      rcases List.mem_cons.mp hx with rfl | hx'
      · exact absurd hy hne
      · exact List.mem_cons_of_mem _ hx'
    · rw [upsertOne, if_neg hy]
      rcases List.mem_cons.mp hx with rfl | hx'
      · exact List.mem_cons_self _ _
      · exact List.mem_cons_of_mem _ (ih x hx' hne)

/-- An upsert introduces no row other than the incoming record. -/
lemma mem_upsertOne (l : List TagRecord) (r : TagRecord) :
    ∀ x ∈ upsertOne l r, x = r ∨ x ∈ l := by
  induction l with
  | nil =>
    intro x hx
    rcases List.mem_singleton.mp hx with rfl
    exact Or.inl rfl
  | cons y ys ih =>
    intro x hx
    by_cases hy : y.resume_file_name = r.resume_file_name
    · rw [upsertOne, if_pos hy] at hx
      rcases List.mem_cons.mp hx with rfl | hx'
      · exact Or.inl rfl
      · exact Or.inr (List.mem_cons_of_mem _ hx')
    · rw [upsertOne, if_neg hy] at hx
      rcases List.mem_cons.mp hx with rfl | hx'
      · exact Or.inr (List.mem_cons_self _ _)
      · rcases ih x hx' with h | h
        · exact Or.inl h
        · exact Or.inr (List.mem_cons_of_mem _ h)

/-- C9: over any store state whose keys are unique (the data model
declares resumeFileName a unique key), the upsert is idempotent,
leaves exactly one row for the upserted key and that row is the
incoming record with all its fields, keeps every row with another key,
and adds nothing else. -/
theorem c9_upsert (existing : List TagRecord) (r : TagRecord)
    (hnd : (existing.map TagRecord.resume_file_name).Nodup) :
    upsertOne (upsertOne existing r) r = upsertOne existing r ∧
    (upsertOne existing r).filter
      (fun x => decide (x.resume_file_name = r.resume_file_name)) = [r] ∧
    (∀ x ∈ existing, x.resume_file_name ≠ r.resume_file_name → x ∈ upsertOne existing r) ∧
    (∀ x ∈ upsertOne existing r, x = r ∨ x ∈ existing) :=
  ⟨upsertOne_idem existing r, upsertOne_filter existing r hnd,
    upsertOne_mem_of_ne existing r, mem_upsertOne existing r⟩

/-- C9 witness: the upsert properties on a two-row store receiving an
updated record for the first key. -/
theorem c9_witness :
    upsertOne (upsertOne [recA, recB] recA2) recA2 = upsertOne [recA, recB] recA2 ∧
    (upsertOne [recA, recB] recA2).filter
      (fun x => decide (x.resume_file_name = recA2.resume_file_name)) = [recA2] ∧
    (∀ x ∈ [recA, recB], x.resume_file_name ≠ recA2.resume_file_name →
      x ∈ upsertOne [recA, recB] recA2) ∧
    (∀ x ∈ upsertOne [recA, recB] recA2, x = recA2 ∨ x ∈ [recA, recB]) :=
  c9_upsert [recA, recB] recA2 (by decide)

/-- C10: the store flush absorbs every fault of the backing tabular
store: for every fault condition it returns normally (so a failed
per-document flush neither aborts the ingestion run nor can reach the
failure ledger, which only records exceptions), and on a write fault
the backing store is simply left unchanged, the records silently not
persisted. -/
theorem c10_save_absorbs (fault : SaveFault) (results : List TagRecord)
    (failed : List String) (disk : Option Workbook) :
    (∃ d, saveToExcelRun fault results failed disk = Except.ok d) ∧
    saveToExcelRun SaveFault.writeFault results failed disk = Except.ok disk := by
  refine ⟨?_, rfl⟩
  cases fault
  · exact ⟨_, rfl⟩
  · exact ⟨_, rfl⟩
  · exact ⟨_, rfl⟩
